import Mathlib

/-!
Shallow embedding of the wmii tiling-layout engine (libqtile/layout/wmii.py).

The layout state is a list of columns, each column a record of an optional
active row index, a width (integer percent), a mode string ("split" or
"stack") and an ordered list of client rows, together with a flat client
registry and an optional focus pointer (current_window).

Python-level behaviour is modelled explicitly:
  - list indexing with a possibly negative index follows Python semantics
    (negative indices count from the end); an out-of-range access is an
    IndexError, modelled by returning none from the operation;
  - division by zero (ZeroDivisionError) is likewise modelled by none;
  - list.remove / list.index operate on the first occurrence by value
    equality, modelled by List.erase / List.indexOf;
  - the column dict created by add_column carries no active key, so the
    active field is an Option Nat (none = key absent);
  - group.focus(client) is a call into the host window manager, not a
    state change of the layout engine itself; operations that invoke it
    return the client handed to the host as a second component
    (none = the delegate was not invoked).

Fallible operations return Option: some = normal return, none = the
Python code raises an uncaught exception at that input.
-/

/-- Python list indexing l[i]: a negative index counts from the end; an index
out of range raises IndexError, modelled as none. -/
def pyIdx {α : Type} (l : List α) (i : Int) : Option α :=
  let j : Int := if i < 0 then i + l.length else i
  if j < 0 then none else l[j.toNat]?

/-- The module-level swap helper of wmii.py: tmp = array[b]; array[b] = array[a];
array[a] = tmp. The first read is array[b], so b out of range raises IndexError
before anything else, modelled as none. -/
def swap {α : Type} (l : List α) (a b : Nat) : Option (List α) :=
  match l[b]? with
  | none => none
  | some tmp =>
    match l[a]? with
    | none => none
    | some va => some ((l.set b va).set a tmp)

/-- One column of the wmii layout: the Python dict
⁅ 'active': i, 'width': w, 'mode': m, 'rows': rs ⁆. The active field is
optional because the dict built by add_column has no 'active' key. -/
structure Column (α : Type) where
  active : Option Nat
  width : Nat
  mode : String
  rows : List α
deriving DecidableEq

/-- The state of one Wmii layout instance: the focus pointer
(current_window), the flat client registry (clients) and the ordered
column list (columns). -/
structure Wmii (α : Type) where
  current_window : Option α
  clients : List α
  columns : List (Column α)
deriving DecidableEq

/-- The state built by Wmii.__init__ (and reset by clone): no focus, empty
registry, a single placeholder column of width 100, mode split, no rows,
active index 0. -/
def Wmii.initial {α : Type} : Wmii α :=
  ⟨none, [], [⟨some 0, 100, "split", []⟩]⟩

/-- Wmii.current_column: None when nothing is focused, otherwise the first
column whose rows contain the focused client (None when no column does). -/
def Wmii.current_column {α : Type} [DecidableEq α] (s : Wmii α) : Option (Column α) :=
  match s.current_window with
  | none => none
  | some w => s.columns.find? fun c => decide (w ∈ c.rows)

/-- Wmii.focus: set the focus pointer to client and, in every column whose
rows contain client, set the active index to client's row position. -/
def Wmii.focus {α : Type} [DecidableEq α] (s : Wmii α) (client : α) : Wmii α :=
  { s with
    current_window := some client
    columns := s.columns.map fun c =>
      if client ∈ c.rows then { c with active := some (c.rows.indexOf client) } else c }

/-- Wmii.add: append client to the registry, find the focused client's column
(falling back to columns[0], an IndexError when there is no column at all),
append client to that column's rows, then focus client. -/
def Wmii.add {α : Type} [DecidableEq α] (s : Wmii α) (client : α) : Option (Wmii α) :=
  let s1 : Wmii α := { s with clients := s.clients ++ [client] }
  let j0 : Nat :=
    match s1.current_window with
    | none => s1.columns.length
    | some w => s1.columns.findIdx fun c => decide (w ∈ c.rows)
  let j : Nat := if j0 < s1.columns.length then j0 else 0
  match s1.columns[j]? with
  | none => none
  | some c =>
    some (Wmii.focus
      { s1 with columns := s1.columns.set j { c with rows := c.rows ++ [client] } } client)

/-- Wmii.add_column: newwidth = 100 / (len(columns) + 1) (integer division),
reassign newwidth to every existing column, then insert a fresh column
⁅ width: newwidth, mode: split, rows: [win] ⁆ (no active key) at the front
if prepend else at the back. -/
def Wmii.add_column {α : Type} (s : Wmii α) (prepend : Bool) (win : α) : Wmii α :=
  let newwidth := 100 / (s.columns.length + 1)
  let widened := s.columns.map fun c => { c with width := newwidth }
  let c : Column α := ⟨none, newwidth, "split", [win]⟩
  { s with columns := if prepend then c :: widened else widened ++ [c] }

/-- Wmii.remove, translated statement by statement. The return value is
(state, returned client); none models an uncaught exception: the
ZeroDivisionError of newwidth = 100 / len(columns) after the only column was
deleted, or an IndexError on rows[0] of an empty selected column. -/
def Wmii.remove {α : Type} [DecidableEq α] (s : Wmii α) (client : α) :
    Option (Wmii α × Option α) :=
  if client ∈ s.clients then
    let s1 : Wmii α := { s with clients := s.clients.erase client }
    if s1.current_window = some client then
      let s2 : Wmii α := { s1 with current_window := none }
      let j : Nat := s2.columns.findIdx fun c => decide (client ∈ c.rows)
      match s2.columns[j]? with
      | none => some (s2, none)
      | some c =>
        let ridx := c.rows.indexOf client
        let cidx := s2.columns.indexOf c
        let c1 : Column α := { c with rows := c.rows.erase client }
        let cols1 := s2.columns.set j c1
        if c1.rows ≠ [] then
          let ridx1 := if ridx > 0 then ridx - 1 else ridx
          match c1.rows[ridx1]? with
          | none => none
          | some newclient =>
            some (Wmii.focus { s2 with columns := cols1 } newclient, some newclient)
        else
          let cols2 := cols1.erase c1
          if cols2.length = 0 then
            none
          else
            let newwidth := 100 / cols2.length
            let cols3 := cols2.map fun col => { col with width := newwidth }
            let s3 : Wmii α := { s2 with columns := cols3 }
            if cols3.length = 1 then some (s3, none)
            else
              let cidx1 := if cidx > 0 then cidx - 1 else cidx
              match cols3[cidx1]? with
              | none => none
              | some c2 =>
                match c2.rows[0]? with
                | none => none
                | some newclient =>
                  some ({ s3 with current_window := some newclient }, some newclient)
    else some (s1, none)
  else some (s, none)

/-- Wmii.cmd_up: no-op when there is no current column; otherwise read the
focused client's row index, return unchanged when the column is in split mode
at the top row, else hand rows[ridx - 1] (Python indexing: -1 wraps to the
last row) to the host focus delegate. -/
def Wmii.cmd_up {α : Type} [DecidableEq α] (s : Wmii α) : Option (Wmii α × Option α) :=
  match s.current_column with
  | none => some (s, none)
  | some c =>
    match s.current_window with
    | none => none
    | some w =>
      let ridx : Int := (c.rows.indexOf w : Nat)
      if c.mode = "split" ∧ ridx = 0 then some (s, none)
      else
        match pyIdx c.rows (ridx - 1) with
        | none => none
        | some client => some (s, some client)

/-- Wmii.cmd_down: symmetric to cmd_up with guard ridx == len(rows) - 1 in
split mode and target rows[ridx + 1]; in stacked mode at the bottom row the
access rows[ridx + 1] is out of range and raises IndexError. -/
def Wmii.cmd_down {α : Type} [DecidableEq α] (s : Wmii α) : Option (Wmii α × Option α) :=
  match s.current_column with
  | none => some (s, none)
  | some c =>
    match s.current_window with
    | none => none
    | some w =>
      let ridx : Int := (c.rows.indexOf w : Nat)
      if c.mode = "split" ∧ ridx = (c.rows.length : Int) - 1 then some (s, none)
      else
        match pyIdx c.rows (ridx + 1) with
        | none => none
        | some client => some (s, some client)

/-- Wmii.cmd_shuffle_down: in the first column containing the focused client,
if ridx < len(rows) (a guard that always holds) swap rows ridx and ridx + 1,
then focus the client now at ridx + 1 and hand it to the host delegate. -/
def Wmii.cmd_shuffle_down {α : Type} [DecidableEq α] (s : Wmii α) :
    Option (Wmii α × Option α) :=
  match s.current_window with
  | none => some (s, none)
  | some w =>
    let j : Nat := s.columns.findIdx fun c => decide (w ∈ c.rows)
    match s.columns[j]? with
    | none => some (s, none)
    | some c =>
      let r := c.rows
      let ridx := r.indexOf w
      if ridx < r.length then
        match swap r ridx (ridx + 1) with
        | none => none
        | some r1 =>
          match r1[ridx + 1]? with
          | none => none
          | some client =>
            some
              (Wmii.focus { s with columns := s.columns.set j { c with rows := r1 } } client,
               some client)
      else some (s, none)

/-! ### General list lemmas used by the claim proofs -/

theorem findIdx_append_cons {β : Type} (p : β → Bool) (l₁ l₂ : List β) (c : β)
    (h : ∀ x ∈ l₁, ¬ p x) (hc : p c) :
    (l₁ ++ c :: l₂).findIdx p = l₁.length := by
  induction l₁ with
  | nil => simp [List.findIdx_cons, hc]
  | cons a t ih =>
    have ha : ¬ p a := h a (by simp)
    simp only [List.cons_append, List.findIdx_cons, Bool.cond_eq_ite, if_neg ha]
    rw [ih fun x hx => h x (by simp [hx])]
    simp

theorem find?_append_cons {β : Type} (p : β → Bool) (l₁ l₂ : List β) (c : β)
    (h : ∀ x ∈ l₁, ¬ p x) (hc : p c) :
    (l₁ ++ c :: l₂).find? p = some c := by
  induction l₁ with
  | nil => simp [List.find?, hc]
  | cons a t ih =>
    have ha : ¬ p a := h a (by simp)
    simp only [List.cons_append, List.find?]
    rw [Bool.not_eq_true] at ha
    rw [ha]
    exact ih fun x hx => h x (by simp [hx])

theorem getElem?_append_len {β : Type} (l₁ l₂ : List β) (c : β) :
    (l₁ ++ c :: l₂)[l₁.length]? = some c := by
  rw [List.getElem?_append_right (Nat.le_refl _)]
  simp

theorem set_append_len {β : Type} (l₁ l₂ : List β) (c c' : β) :
    (l₁ ++ c :: l₂).set l₁.length c' = l₁ ++ c' :: l₂ := by
  induction l₁ with
  | nil => simp
  | cons a t ih => simp [List.set, ih]

theorem indexOf_append_cons {β : Type} [DecidableEq β] (l₁ l₂ : List β) (c : β)
    (h : ∀ x ∈ l₁, x ≠ c) :
    (l₁ ++ c :: l₂).indexOf c = l₁.length := by
  induction l₁ with
  | nil => simp [List.indexOf_cons_self]
  | cons a t ih =>
    have ha : a ≠ c := h a (by simp)
    simp only [List.cons_append]
    rw [List.indexOf_cons_ne _ ha, ih fun x hx => h x (by simp [hx])]
    simp

theorem erase_append_cons {β : Type} [DecidableEq β] (l₁ l₂ : List β) (c : β)
    (h : ∀ x ∈ l₁, x ≠ c) :
    (l₁ ++ c :: l₂).erase c = l₁ ++ l₂ := by
  have hc : c ∉ l₁ := fun hmem => (h c hmem) rfl
  rw [List.erase_append_right _ hc, List.erase_cons_head]

/-! ### Claim theorems -/

/-- Claim C1: adding a single client to the freshly initialised layout and then
removing it does not end in the placeholder state: the removal deletes the only
column and then computes 100 / len(columns) with zero columns, an uncaught
ZeroDivisionError. This refutes the spec property that every add-then-remove-all
sequence ends, without faulting, in one empty placeholder column. -/
theorem add_then_remove_single_client_faults :
    Option.bind ((Wmii.initial : Wmii Nat).add 0) (fun s => s.remove 0) = none := by
  decide

/-- Claim C2: from the reachable state with one column holding the single
focused client 5 (the state produced by add(5) from the initial layout, up to
the value of the client handle), remove(5) empties and deletes the only
column — the column list the engine then holds is empty — and the operation
faults on the width rebalance instead of keeping at least one column. -/
theorem remove_passes_through_zero_columns :
    (((⟨some 5, [5], [⟨some 0, 100, "split", [5]⟩]⟩ : Wmii Nat).columns.set 0
        ⟨some 0, 100, "split", []⟩).erase ⟨some 0, 100, "split", []⟩ = []) ∧
    (⟨some 5, [5], [⟨some 0, 100, "split", [5]⟩]⟩ : Wmii Nat).remove 5 = none := by
  exact ⟨by decide, by decide⟩

/-- Claim C4 counterexample: in the well-formed single-column state with one
focused client (reached from the initial state by add(0)), removing that
client empties its column, so the claim asserts the column is deleted, the
remaining widths are rebalanced, and remove returns none or a client; instead
the code faults (ZeroDivisionError on 100 / 0), so remove produces no result
state at all. -/
theorem remove_sole_column_faults :
    (⟨some 0, [0], [⟨some 0, 100, "split", [0]⟩]⟩ : Wmii Nat).remove 0 = none := by
  decide

/-- Claim C7: in a stacked column with rows [0, 1] and the focused client 1 at
the bottom row, cmd_down does not wrap to the top row: it reads rows[2], an
out-of-range IndexError, exactly the boundary defect the spec flags. -/
theorem cmd_down_stacked_bottom_faults :
    (⟨some 1, [0, 1], [⟨some 1, 100, "stack", [0, 1]⟩]⟩ : Wmii Nat).cmd_down = none := by
  decide

/-- Claim C8: with the focused client 1 at the bottom (last) row of its column,
cmd_shuffle_down is not a no-op: the guard ridx < len(rows) admits the last
row, and swap reads rows[2], an out-of-range IndexError, exactly the
shuffle_down boundary defect the spec flags. -/
theorem shuffle_down_bottom_row_faults :
    (⟨some 1, [0, 1], [⟨some 1, 100, "split", [0, 1]⟩]⟩ : Wmii Nat).cmd_shuffle_down
      = none := by
  decide

/-- Claim C5: removing a registered client that is not the currently focused
client erases it from the flat registry and changes nothing else: the column
list (hence every column's rows, width, mode and active index) and the focus
pointer are exactly as before, and remove returns none. -/
theorem remove_unfocused_client_frame {α : Type} [DecidableEq α]
    (s : Wmii α) (client : α) (hmem : client ∈ s.clients)
    (hfoc : s.current_window ≠ some client) :
    s.remove client = some ({ s with clients := s.clients.erase client }, none) := by
  have h2 : ({ s with clients := s.clients.erase client } : Wmii α).current_window
      ≠ some client := hfoc
  simp only [Wmii.remove, if_pos hmem, if_neg h2]

/-- Claim C5 witness: removing the registered, unfocused client 0 from a
two-client column leaves the columns and focus untouched and shortens the
registry. -/
theorem remove_unfocused_client_frame_witness :
    (⟨some 1, [0, 1], [⟨some 1, 100, "split", [0, 1]⟩]⟩ : Wmii Nat).remove 0 =
      some (⟨some 1, [1], [⟨some 1, 100, "split", [0, 1]⟩]⟩, none) :=
  remove_unfocused_client_frame _ 0 (by decide) (by decide)

/-- Claim C9: add_column(prepend, win) computes newwidth = 100 / (n + 1) by
integer division for n existing columns, reassigns that width to every
existing column (changing none of their rows, modes, or relative order), and
inserts one fresh column of width newwidth, mode split, rows exactly [win]
(and no active entry) at the front when prepend is true, at the back
otherwise; the registry and focus pointer are untouched. -/
theorem add_column_spec {α : Type} (s : Wmii α) (prepend : Bool) (win : α) :
    (s.add_column prepend win).columns =
      (if prepend then
        (⟨none, 100 / (s.columns.length + 1), "split", [win]⟩ : Column α) ::
          s.columns.map (fun c => { c with width := 100 / (s.columns.length + 1) })
       else
        s.columns.map (fun c => { c with width := 100 / (s.columns.length + 1) }) ++
          [⟨none, 100 / (s.columns.length + 1), "split", [win]⟩]) ∧
    (s.add_column prepend win).clients = s.clients ∧
    (s.add_column prepend win).current_window = s.current_window := by
  refine ⟨?_, rfl, rfl⟩
  simp only [Wmii.add_column]

/-- Claim C10: when no client is focused, or the focused client occurs in no
column's rows, cmd_up and cmd_down do not fault and return the state
unchanged without invoking the host focus delegate. -/
theorem cmd_up_down_unfocused_noop {α : Type} [DecidableEq α] (s : Wmii α)
    (h : s.current_window = none ∨
      ∀ w, s.current_window = some w → ∀ c ∈ s.columns, w ∉ c.rows) :
    s.cmd_up = some (s, none) ∧ s.cmd_down = some (s, none) := by
  have hcc : s.current_column = none := by
    rcases h with h | h
    · simp [Wmii.current_column, h]
    · cases hw : s.current_window with
      | none => simp [Wmii.current_column, hw]
      | some w =>
        simp only [Wmii.current_column, hw]
        rw [List.find?_eq_none]
        intro c hc
        simpa using h w hw c hc
  exact ⟨by simp [Wmii.cmd_up, hcc], by simp [Wmii.cmd_down, hcc]⟩

/-- Claim C10 witness: on the freshly initialised layout (no client focused)
both cmd_up and cmd_down leave the state untouched and do not fault. -/
theorem cmd_up_down_unfocused_noop_witness :
    (Wmii.initial : Wmii Nat).cmd_up = some (Wmii.initial, none) ∧
    (Wmii.initial : Wmii Nat).cmd_down = some (Wmii.initial, none) :=
  cmd_up_down_unfocused_noop Wmii.initial (Or.inl rfl)

/-- A nonnegative Python index simply reads the list at that position. -/
theorem pyIdx_nonneg {β : Type} (l : List β) (i : Int) (h : 0 ≤ i) :
    pyIdx l i = l[i.toNat]? := by
  have h' : ¬ i < 0 := not_lt.2 h
  simp [pyIdx, h']

/-- A negative Python index in range wraps: l[i] = l[len(l) + i]. -/
theorem pyIdx_neg_wrap {β : Type} (l : List β) (i : Int) (hneg : i < 0)
    (hge : 0 ≤ i + l.length) :
    pyIdx l i = l[(i + l.length).toNat]? := by
  have h' : ¬ i + (l.length : Int) < 0 := not_lt.2 hge
  simp [pyIdx, hneg, h']

/-- Claim C6: with a focused client w whose (first) column is c, cmd_up is a
no-op when the column is in split mode and w sits at the top row; otherwise it
hands the row immediately above (rows[ridx - 1]) to the host focus delegate;
and in stacked (non-split) mode, moving up from the top row wraps to the
bottom row of the column. -/
theorem cmd_up_spec {α : Type} [DecidableEq α] (s : Wmii α) (w : α) (c : Column α)
    (hw : s.current_window = some w)
    (hc : s.columns.find? (fun col => decide (w ∈ col.rows)) = some c) :
    (c.mode = "split" → c.rows.indexOf w = 0 → s.cmd_up = some (s, none)) ∧
    (0 < c.rows.indexOf w → s.cmd_up = some (s, c.rows[c.rows.indexOf w - 1]?)) ∧
    (c.mode ≠ "split" → c.rows.indexOf w = 0 →
      s.cmd_up = some (s, c.rows[c.rows.length - 1]?)) := by
  have hwc : w ∈ c.rows := by
    have := List.find?_some hc
    simpa using this
  have hlt : c.rows.indexOf w < c.rows.length := List.indexOf_lt_length.2 hwc
  have hcc : s.current_column = some c := by
    simp [Wmii.current_column, hw, hc]
  refine ⟨?_, ?_, ?_⟩
  · intro hm h0
    simp [Wmii.cmd_up, hcc, hw, hm, h0]
  · intro hpos
    have hne : ¬ (c.mode = "split" ∧ ((c.rows.indexOf w : Nat) : Int) = 0) := by
      rintro ⟨-, h⟩
      omega
    have hp : pyIdx c.rows ((c.rows.indexOf w : Nat) - 1 : Int) =
        c.rows[c.rows.indexOf w - 1]? := by
      rw [pyIdx_nonneg _ _ (by omega)]
      congr 1
      omega
    obtain ⟨x, hx⟩ : ∃ x, c.rows[c.rows.indexOf w - 1]? = some x :=
      ⟨_, List.getElem?_eq_getElem (by omega)⟩
    simp only [Wmii.cmd_up, hcc, hw, if_neg hne, hp, hx]
  · intro hm h0
    have hne : ¬ (c.mode = "split" ∧ ((c.rows.indexOf w : Nat) : Int) = 0) := by
      rintro ⟨h, -⟩
      exact hm h
    have hlen : 1 ≤ c.rows.length := by omega
    have hp : pyIdx c.rows ((c.rows.indexOf w : Nat) - 1 : Int) =
        c.rows[c.rows.length - 1]? := by
      rw [h0]
      rw [pyIdx_neg_wrap _ _ (by omega) (by push_cast; omega)]
      congr 1
      push_cast
      omega
    obtain ⟨x, hx⟩ : ∃ x, c.rows[c.rows.length - 1]? = some x :=
      ⟨_, List.getElem?_eq_getElem (by omega)⟩
    simp only [Wmii.cmd_up, hcc, hw, if_neg hne, hp, hx]

/-- Claim C6 witness, the spec scenario: one stacked column with rows
[0, 1, 2] and focus on the top row 0; cmd_up wraps focus to the bottom
row 2. -/
theorem cmd_up_spec_witness :
    (⟨some 0, [0, 1, 2], [⟨some 0, 100, "stack", [0, 1, 2]⟩]⟩ : Wmii Nat).cmd_up =
      some (⟨some 0, [0, 1, 2], [⟨some 0, 100, "stack", [0, 1, 2]⟩]⟩, some 2) := by
  have h := (cmd_up_spec (⟨some 0, [0, 1, 2], [⟨some 0, 100, "stack", [0, 1, 2]⟩]⟩ : Wmii Nat)
    0 ⟨some 0, 100, "stack", [0, 1, 2]⟩ (by decide) (by decide)).2.2 (by decide) (by decide)
  simpa using h

/-- Claim C3: removing the currently focused client whose column keeps at
least one row hands focus to the row now at index max(old_index - 1, 0)
(Nat subtraction below is exactly that clamp) of the same column, and remove
returns that client. -/
theorem remove_focused_keeps_column_focus {α : Type} [DecidableEq α]
    (cl : List α) (pre post : List (Column α)) (c : Column α) (client : α)
    (hmem : client ∈ cl)
    (hpre : ∀ col ∈ pre, client ∉ col.rows)
    (hcw : client ∈ c.rows)
    (hne : c.rows.erase client ≠ []) :
    ∃ s' nc,
      Wmii.remove ⟨some client, cl, pre ++ c :: post⟩ client = some (s', some nc) ∧
      (c.rows.erase client)[c.rows.indexOf client - 1]? = some nc ∧
      s'.current_window = some nc := by
  have hlt : c.rows.indexOf client < c.rows.length := List.indexOf_lt_length.2 hcw
  have hel : (c.rows.erase client).length = c.rows.length - 1 :=
    List.length_erase_of_mem hcw
  have helpos : 0 < (c.rows.erase client).length := List.length_pos.2 hne
  have hb : c.rows.indexOf client - 1 < (c.rows.erase client).length := by
    rw [hel]
    omega
  have hj : ((pre ++ c :: post).findIdx fun col => decide (client ∈ col.rows))
      = pre.length := by
    refine findIdx_append_cons _ _ _ _ (fun x hx => ?_) (by simpa using hcw)
    simpa using hpre x hx
  have hget : (pre ++ c :: post)[pre.length]? = some c := getElem?_append_len _ _ _
  have hr1 : (if c.rows.indexOf client > 0 then c.rows.indexOf client - 1
      else c.rows.indexOf client) = c.rows.indexOf client - 1 := by
    by_cases h : c.rows.indexOf client > 0
    · rw [if_pos h]
    · rw [if_neg h]
      omega
  obtain ⟨nc, hnc⟩ :
      ∃ nc, (c.rows.erase client)[c.rows.indexOf client - 1]? = some nc :=
    ⟨_, List.getElem?_eq_getElem hb⟩
  have heq : Wmii.remove ⟨some client, cl, pre ++ c :: post⟩ client
      = some (Wmii.focus ⟨none, cl.erase client,
          (pre ++ c :: post).set pre.length
            ⟨c.active, c.width, c.mode, c.rows.erase client⟩⟩ nc,
        some nc) := by
    simp [Wmii.remove, hj, hget, hmem, hne, hr1, hnc]
  exact ⟨_, nc, heq, hnc, rfl⟩

/-- Claim C3 witness: removing the focused middle client of rows [0, 1, 2]
focuses the row now at index 0 (client 0) and returns it. -/
theorem remove_focused_keeps_column_focus_witness :
    ∃ s' nc,
      Wmii.remove (⟨some 1, [0, 1, 2], [⟨some 1, 100, "split", [0, 1, 2]⟩]⟩ : Wmii Nat) 1
        = some (s', some nc) ∧
      (([0, 1, 2] : List Nat).erase 1)[([0, 1, 2] : List Nat).indexOf 1 - 1]? = some nc ∧
      s'.current_window = some nc :=
  remove_focused_keeps_column_focus [0, 1, 2] [] []
    ⟨some 1, 100, "split", [0, 1, 2]⟩ 1 (by decide) (by simp) (by decide) (by decide)

/-- Claim C4, amended: provided at least two columns exist before the removal
and every other column has nonempty rows, removing the focused client of a
column that thereby becomes empty deletes that column, gives every remaining
column width 100 / remaining_count (integer division), returns none when
exactly one column remains, and otherwise selects the column immediately left
of the removed one (clamped to index 0, i.e. index pre.length - 1 in Nat
subtraction), focuses its first row, and returns that client. The original
claim without the two-column proviso is refuted by the single-column
ZeroDivisionError counterexample above. -/
theorem remove_focused_empties_column_spec {α : Type} [DecidableEq α]
    (cl : List α) (pre post : List (Column α)) (c : Column α) (client : α)
    (hmem : client ∈ cl)
    (hpre : ∀ col ∈ pre, client ∉ col.rows)
    (hcw : client ∈ c.rows)
    (hemp : c.rows.erase client = [])
    (hcols : pre ++ post ≠ [])
    (hrows : ∀ col ∈ pre ++ post, col.rows ≠ []) :
    ∃ s' ret,
      Wmii.remove ⟨some client, cl, pre ++ c :: post⟩ client = some (s', ret) ∧
      s'.columns = (pre ++ post).map
        (fun col => { col with width := 100 / (pre ++ post).length }) ∧
      (∀ col ∈ s'.columns, col.width = 100 / s'.columns.length) ∧
      ((pre ++ post).length = 1 → ret = none) ∧
      (2 ≤ (pre ++ post).length →
        ∃ c2 nc, s'.columns[pre.length - 1]? = some c2 ∧ c2.rows[0]? = some nc ∧
          ret = some nc ∧ s'.current_window = some nc) := by
  have hj : ((pre ++ c :: post).findIdx fun col => decide (client ∈ col.rows))
      = pre.length := by
    refine findIdx_append_cons _ _ _ _ (fun x hx => ?_) (by simpa using hcw)
    simpa using hpre x hx
  have hget : (pre ++ c :: post)[pre.length]? = some c := getElem?_append_len _ _ _
  have hcidx : (pre ++ c :: post).indexOf c = pre.length := by
    refine indexOf_append_cons _ _ _ fun col hcol heq => ?_
    exact hpre col hcol (heq ▸ hcw)
  have hset : (pre ++ c :: post).set pre.length
      (⟨c.active, c.width, c.mode, []⟩ : Column α)
      = pre ++ (⟨c.active, c.width, c.mode, []⟩ : Column α) :: post :=
    set_append_len _ _ _ _
  have herase : (pre ++ (⟨c.active, c.width, c.mode, []⟩ : Column α) :: post).erase
      ⟨c.active, c.width, c.mode, []⟩ = pre ++ post := by
    refine erase_append_cons _ _ _ fun col hcol heq => ?_
    exact hrows col (List.mem_append_left _ hcol) (by rw [heq])
  have hpos : 0 < (pre ++ post).length := List.length_pos.2 hcols
  have hne0 : ¬ pre.length + post.length = 0 := by
    rw [List.length_append] at hpos
    omega
  have hwmem : ∀ col ∈ (pre ++ post).map
      (fun col => ({ col with width := 100 / (pre ++ post).length } : Column α)),
      col.width = 100 /
        ((pre ++ post).map
          (fun col => ({ col with width := 100 / (pre ++ post).length } : Column α))).length := by
    intro col hcol
    obtain ⟨orig, -, rfl⟩ := List.mem_map.1 hcol
    simp
  by_cases hone : (pre ++ post).length = 1
  · have hone1 : pre.length + post.length = 1 := by
      rw [List.length_append] at hone
      exact hone
    refine ⟨⟨none, cl.erase client,
      (pre ++ post).map (fun col => { col with width := 100 / (pre ++ post).length })⟩,
      none, ?_, rfl, hwmem, fun _ => rfl, fun h2 => absurd hone (by omega)⟩
    simp [Wmii.remove, hj, hget, hmem, hemp, hset, herase, hne0, hone1]
  · have hone1 : ¬ pre.length + post.length = 1 := by
      rw [List.length_append] at hone
      exact hone
    have hb2 : pre.length - 1 < (pre ++ post).length := by
      have := List.length_append pre post
      rcases Nat.eq_zero_or_pos pre.length with h | h <;> omega
    obtain ⟨orig, horig⟩ : ∃ orig, (pre ++ post)[pre.length - 1]? = some orig :=
      ⟨_, List.getElem?_eq_getElem hb2⟩
    have horigmem : orig ∈ pre ++ post := List.getElem?_mem horig
    obtain ⟨nc, hnc⟩ : ∃ nc, orig.rows[0]? = some nc :=
      ⟨_, List.getElem?_eq_getElem (List.length_pos.2 (hrows orig horigmem))⟩
    have hc2 : ((pre ++ post).map
        (fun col => ({ col with width := 100 / (pre ++ post).length } : Column α)))[pre.length - 1]?
        = some ⟨orig.active, 100 / (pre ++ post).length, orig.mode, orig.rows⟩ := by
      rw [List.getElem?_map, horig]
      rfl
    have hclamp : (if pre.length > 0 then pre.length - 1 else pre.length)
        = pre.length - 1 := by
      by_cases h : pre.length > 0
      · rw [if_pos h]
      · rw [if_neg h]
        omega
    refine ⟨⟨some nc, cl.erase client,
      (pre ++ post).map (fun col => { col with width := 100 / (pre ++ post).length })⟩,
      some nc, ?_, rfl, hwmem, fun h1 => absurd h1 hone, fun _ =>
        ⟨⟨orig.active, 100 / (pre ++ post).length, orig.mode, orig.rows⟩, nc,
          hc2, hnc, rfl, rfl⟩⟩
    simp only [Wmii.remove, hj, hget, hcidx]
    simp only [hmem, if_true, eq_self_iff_true, hemp, ne_eq, not_true_eq_false,
      if_false, hset, herase]
    rw [if_neg (by simpa using hne0)]
    rw [if_neg (by simpa using hone1)]
    rw [hclamp]
    rw [hc2]
    simp [hnc]

/-- Concrete columns used by the witness of the amended column-emptying claim. -/
def wcolA : Column Nat := ⟨some 0, 33, "split", [0]⟩

/-- Concrete middle column (holding the focused client 1) for the same witness. -/
def wcolB : Column Nat := ⟨some 0, 33, "split", [1]⟩

/-- Concrete right column for the same witness. -/
def wcolC : Column Nat := ⟨some 0, 33, "split", [2]⟩

/-- Claim C4 witness: three singleton columns [0], [1], [2] with focus on 1;
removing 1 deletes the middle column, rebalances both remaining widths to
100 / 2, selects the left column and focuses and returns its first row 0. -/
theorem remove_focused_empties_column_spec_witness :
    ∃ (s' : Wmii Nat) (ret : Option Nat),
      Wmii.remove ⟨some 1, [0, 1, 2], [wcolA] ++ wcolB :: [wcolC]⟩ 1 = some (s', ret) ∧
      s'.columns = ([wcolA] ++ [wcolC]).map
        (fun col => { col with width := 100 / ([wcolA] ++ [wcolC]).length }) ∧
      (∀ col ∈ s'.columns, col.width = 100 / s'.columns.length) ∧
      (([wcolA] ++ [wcolC]).length = 1 → ret = none) ∧
      (2 ≤ ([wcolA] ++ [wcolC]).length →
        ∃ c2 nc, s'.columns[[wcolA].length - 1]? = some c2 ∧ c2.rows[0]? = some nc ∧
          ret = some nc ∧ s'.current_window = some nc) :=
  remove_focused_empties_column_spec [0, 1, 2] [wcolA] [wcolC] wcolB 1 (by decide)
    (by decide) (by decide) (by decide) (by decide) (by decide)
